import Mathlib

set_option maxRecDepth 8000

/-!
Verification of the retrieval-augmentation pipeline of the RADA AMS chatbot
(`chatbot_engine.py`, `main_app.py`).  The Python code is shallowly embedded:
pure string manipulation and the regular expressions used by `expand_query`
are modelled as executable functions on `List Char`; the external
collaborators (embedding model, vector index, cross-encoder reranker, token
counter, Groq LLM client) are modelled as function-valued parameters whose
fallible calls return `Except String`.  Python character operations are
modelled at ASCII fidelity (`Char.toLower`, `Char.toUpper`, ASCII digit and
whitespace classes), matching the behaviour of the source on ASCII input.
-/

namespace RadaAms

/-! ### Python string primitives -/

/-- ASCII uppercase letter class, the `[A-Z]` regex class. -/
def isUpperAZ (c : Char) : Bool := 'A' ≤ c && c ≤ 'Z'

/-- ASCII digit class, the regex `\d` class restricted to ASCII. -/
def isDigit09 (c : Char) : Bool := '0' ≤ c && c ≤ '9'

/-- The slash-or-dash separator class of the numeric date pattern. -/
def isSepChar (c : Char) : Bool := c = '/' || c = '-'

/-- ASCII whitespace, the regex `\s` class restricted to ASCII. -/
def isSpaceChar (c : Char) : Bool :=
  c = ' ' || c = '\t' || c = '\n' || c = '\r' || c = '\x0b' || c = '\x0c'

/-- Take exactly `n` leading characters satisfying `p`; return them and the
rest, or `none` if fewer than `n` such characters lead the list. -/
def takeP (p : Char → Bool) : Nat → List Char → Option (List Char × List Char)
  | 0, l => some ([], l)
  | _ + 1, [] => none
  | n + 1, c :: rest =>
    if p c then (takeP p n rest).map (fun pr => (c :: pr.1, pr.2)) else none

/-- `re.findall` driver: scan left to right; on a match emit the matcher's
result string and resume after the consumed text, otherwise advance one
character.  `fuel` starts at the input length; every step consumes at least
one character for the matchers used here, so the fuel never runs out. -/
def findAllAux (m : List Char → Option (List Char × List Char)) :
    Nat → List Char → List (List Char)
  | 0, _ => []
  | _ + 1, [] => []
  | fuel + 1, c :: rest =>
    match m (c :: rest) with
    | some (g, r) => g :: findAllAux m fuel r
    | none => findAllAux m fuel rest

/-- `re.findall pattern s` for a matcher `m` anchored at each position. -/
def findAll (m : List Char → Option (List Char × List Char)) (l : List Char) :
    List (List Char) :=
  findAllAux m l.length l

/-- Python substring test `needle in hay` (for nonempty `needle`). -/
def listContains (needle : List Char) : List Char → Bool
  | [] => needle.isEmpty
  | l@(_ :: rest) => needle.isPrefixOf l || listContains needle rest

/-- Python `str.replace`: replace all non-overlapping occurrences of `pat`
left to right.  Fuel-driven; `fuel = input length` suffices for nonempty
`pat`. -/
def replaceAllAux (pat rep : List Char) : Nat → List Char → List Char
  | 0, l => l
  | _ + 1, [] => []
  | fuel + 1, l@(c :: rest) =>
    if pat.isPrefixOf l then rep ++ replaceAllAux pat rep fuel (l.drop pat.length)
    else c :: replaceAllAux pat rep fuel rest

/-- Python `s.replace(pat, rep)` on strings. -/
def pyReplace (s pat rep : String) : String :=
  String.mk (replaceAllAux pat.data rep.data s.data.length s.data)

/-- First-occurrence deduplication with an accumulator of already-seen
elements; models the membership behaviour of Python's `list(set(xs))`
(whose iteration order is unspecified — downstream claims only use
membership). -/
def dedupFirstAux [DecidableEq α] (seen : List α) : List α → List α
  | [] => []
  | x :: xs =>
    if x ∈ seen then dedupFirstAux seen xs
    else x :: dedupFirstAux (x :: seen) xs

def dedupFirst [DecidableEq α] (l : List α) : List α := dedupFirstAux [] l

/-! ### The context budgeter (`limit_context`, chatbot_engine.py lines 80-94)

The tokenizer obtained from `tiktoken` (with its `cl100k_base` fallback) is
abstracted as a cost function `tok : α → Nat` giving `len(enc.encode chunk)`. -/

def limitAux (tok : α → Nat) (maxTokens : Nat) : List α → Nat → List α × Nat
  | [], t => ([], t)
  | c :: cs, t =>
    if t + tok c > maxTokens then ([], t)
    else (c :: (limitAux tok maxTokens cs (t + tok c)).1,
          (limitAux tok maxTokens cs (t + tok c)).2)

/-- `limit_context(chunks, max_tokens)`: greedy prefix selection under a
token budget, stopping at the first over-budget chunk. -/
def limit_context (tok : α → Nat) (chunks : List α) (maxTokens : Nat) :
    List α × Nat :=
  limitAux tok maxTokens chunks 0

theorem limitAux_spec (tok : α → Nat) (maxTokens : Nat) :
    ∀ (l : List α) (t : Nat),
      (limitAux tok maxTokens l t).1 <+: l ∧
      (limitAux tok maxTokens l t).2 =
        t + (((limitAux tok maxTokens l t).1).map tok).sum ∧
      (t ≤ maxTokens → (limitAux tok maxTokens l t).2 ≤ maxTokens) ∧
      (∀ c rest, l = (limitAux tok maxTokens l t).1 ++ c :: rest →
        (limitAux tok maxTokens l t).2 + tok c > maxTokens) := by
  intro l
  induction l with
  | nil =>
    intro t
    refine ⟨⟨[], rfl⟩, by simp [limitAux], fun h => by simpa [limitAux] using h,
      fun c rest hcr => by simp [limitAux] at hcr⟩
  | cons c cs ih =>
    intro t
    have hstep : limitAux tok maxTokens (c :: cs) t =
        if t + tok c > maxTokens then ([], t)
        else (c :: (limitAux tok maxTokens cs (t + tok c)).1,
              (limitAux tok maxTokens cs (t + tok c)).2) := rfl
    by_cases hgt : t + tok c > maxTokens
    · have harm : limitAux tok maxTokens (c :: cs) t = ([], t) := by
        rw [hstep, if_pos hgt]
      refine ⟨?_, ?_, ?_, ?_⟩
      · rw [harm]
        exact ⟨c :: cs, rfl⟩
      · rw [harm]
        simp
      · intro h
        rw [harm]
        exact h
      · intro c' rest hcr
        rw [harm] at hcr ⊢
        rw [List.nil_append] at hcr
        injection hcr with h1 h2
        subst h1
        exact hgt
    · obtain ⟨hpre, hsum, hbound, hmax⟩ := ih (t + tok c)
      have harm : limitAux tok maxTokens (c :: cs) t =
          (c :: (limitAux tok maxTokens cs (t + tok c)).1,
           (limitAux tok maxTokens cs (t + tok c)).2) := by
        rw [hstep, if_neg hgt]
      refine ⟨?_, ?_, ?_, ?_⟩
      · rw [harm]
        obtain ⟨tail, htail⟩ := hpre
        exact ⟨tail, by rw [List.cons_append, htail]⟩
      · rw [harm]
        simp only []
        rw [hsum]
        simp [Nat.add_assoc]
      · intro _
        rw [harm]
        exact hbound (Nat.le_of_not_lt hgt)
      · intro c' rest hcr
        rw [harm] at hcr ⊢
        simp only [List.cons_append, List.cons.injEq] at hcr
        exact hmax c' rest hcr.2

/-- C1: `limit_context` returns a prefix of its input whose total token
count is the sum of the selected chunks' costs and never exceeds
`max_tokens`; selection stops exactly at the first chunk whose cost would
push the running total over the budget (no skipping); and on token costs
`[1000, 1000, 1000, 1000, 1000]` with budget `3500` exactly the first three
chunks are selected with total `3000`. -/
theorem limit_context_greedy_budget (α : Type) (tok : α → Nat)
    (chunks : List α) (maxTokens : Nat) :
    (limit_context tok chunks maxTokens).1 <+: chunks ∧
    (limit_context tok chunks maxTokens).2 =
      (((limit_context tok chunks maxTokens).1).map tok).sum ∧
    (limit_context tok chunks maxTokens).2 ≤ maxTokens ∧
    (∀ c rest, chunks = (limit_context tok chunks maxTokens).1 ++ c :: rest →
      (limit_context tok chunks maxTokens).2 + tok c > maxTokens) ∧
    limit_context (fun n : Nat => n) [1000, 1000, 1000, 1000, 1000] 3500 =
      ([1000, 1000, 1000], 3000) := by
  obtain ⟨hpre, hsum, hbound, hmax⟩ := limitAux_spec tok maxTokens chunks 0
  exact ⟨hpre, by simpa using hsum, hbound (Nat.zero_le _), hmax, by decide⟩

/-- Witness for C1 at the concrete example of the claim: the list
`[1000, 1000, 1000, 1000, 1000]` with budget `3500` selects the first three
chunks, and the fourth is the first chunk that would overflow. -/
theorem limit_context_greedy_budget_witness :
    [1000, 1000, 1000, 1000, 1000] =
      (limit_context (fun n : Nat => n) [1000, 1000, 1000, 1000, 1000] 3500).1
        ++ 1000 :: [1000] ∧
    (limit_context (fun n : Nat => n) [1000, 1000, 1000, 1000, 1000] 3500).2
        + 1000 > 3500 :=
  ⟨by decide,
    (limit_context_greedy_budget Nat (fun n => n)
      [1000, 1000, 1000, 1000, 1000] 3500).2.2.2.1 1000 [1000] (by decide)⟩

/-! ### The regular expressions of `expand_query` (chatbot_engine.py 47-78)

Each Python pattern is embedded as an anchored matcher returning the text
`re.findall` reports for a match starting at the given position (for the
month pattern that is the capture group) together with the input remaining
after the full match.  Greedy quantifiers with backtracking are realised by
ordered alternatives. -/

/-- Optional uppercase letter followed by a colon: the fragment of the well
pattern reading a greedy optional letter before the mandatory colon. -/
def wellMid (l : List Char) : Option (List Char × List Char) :=
  (match l with
   | c :: ':' :: r => if isUpperAZ c then some ([c, ':'], r) else none
   | _ => none) <|>
  (match l with
   | ':' :: r => some ([':'], r)
   | _ => none)

/-- Tail of the well pattern: one uppercase letter, three-or-four digits
(greedy), then an optional uppercase letter. -/
def wellTail (l : List Char) : Option (List Char × List Char) :=
  match l with
  | c :: r =>
    if isUpperAZ c then
      match takeP isDigit09 4 r <|> takeP isDigit09 3 r with
      | some (d, r2) =>
        match r2 with
        | c2 :: r3 =>
          if isUpperAZ c2 then some (c :: d ++ [c2], r3) else some (c :: d, r2)
        | [] => some (c :: d, [])
      | none => none
    else none
  | [] => none

/-- Anchored matcher for the well-identifier pattern: four uppercase
letters, three digits, optional letter, colon, one uppercase letter,
three-or-four digits, optional letter. -/
def matchWellAt (l : List Char) : Option (List Char × List Char) :=
  match takeP isUpperAZ 4 l with
  | none => none
  | some (a, r1) =>
    match takeP isDigit09 3 r1 with
    | none => none
    | some (b, r2) =>
      match wellMid r2 with
      | none => none
      | some (m, r3) =>
        match wellTail r3 with
        | none => none
        | some (tl, r4) => some (a ++ b ++ m ++ tl, r4)

/-- Anchored matcher for the ISO date pattern: four digits, dash, two
digits, dash, two digits. -/
def matchISOAt (l : List Char) : Option (List Char × List Char) :=
  match takeP isDigit09 4 l with
  | some (y, '-' :: r1) =>
    match takeP isDigit09 2 r1 with
    | some (m, '-' :: r2) =>
      match takeP isDigit09 2 r2 with
      | some (d, r3) => some (y ++ '-' :: m ++ '-' :: d, r3)
      | none => none
    | _ => none
  | _ => none

/-- Final component of the numeric date pattern: two-to-four digits,
greedy. -/
def numYear (l : List Char) : Option (List Char × List Char) :=
  takeP isDigit09 4 l <|> takeP isDigit09 3 l <|> takeP isDigit09 2 l

/-- Second component of the numeric date pattern: one-or-two digits
(greedy, with backtracking), separator, then the year component. -/
def numSeg2 (l : List Char) : Option (List Char × List Char) :=
  (match takeP isDigit09 2 l with
   | some (d, s :: r) =>
     if isSepChar s then (numYear r).map (fun pr => (d ++ s :: pr.1, pr.2))
     else none
   | _ => none) <|>
  (match takeP isDigit09 1 l with
   | some (d, s :: r) =>
     if isSepChar s then (numYear r).map (fun pr => (d ++ s :: pr.1, pr.2))
     else none
   | _ => none)

/-- Anchored matcher for the slash-or-dash numeric date pattern. -/
def matchNumAt (l : List Char) : Option (List Char × List Char) :=
  (match takeP isDigit09 2 l with
   | some (d, s :: r) =>
     if isSepChar s then (numSeg2 r).map (fun pr => (d ++ s :: pr.1, pr.2))
     else none
   | _ => none) <|>
  (match takeP isDigit09 1 l with
   | some (d, s :: r) =>
     if isSepChar s then (numSeg2 r).map (fun pr => (d ++ s :: pr.1, pr.2))
     else none
   | _ => none)

/-- Case-insensitive literal match of `pat` against the beginning of `l`,
returning the matched characters in their original casing. -/
def ciStarts (pat : List Char) (l : List Char) :
    Option (List Char × List Char) :=
  match pat, l with
  | [], rest => some ([], rest)
  | _ :: _, [] => none
  | p :: ps, c :: cs =>
    if c.toLower = p.toLower then
      (ciStarts ps cs).map (fun pr => (c :: pr.1, pr.2))
    else none

def monthNames : List (List Char) :=
  ["January".data, "February".data, "March".data, "April".data, "May".data,
   "June".data, "July".data, "August".data, "September".data, "October".data,
   "November".data, "December".data]

/-- Try the month-name alternation in pattern order. -/
def tryMonths : List (List Char) → List Char → Option (List Char × List Char)
  | [], _ => none
  | p :: ps, l => ciStarts p l <|> tryMonths ps l

/-- One-or-more whitespace characters, greedy; returns the remainder. -/
def wsPlus (l : List Char) : Option (List Char) :=
  match l with
  | c :: r => if isSpaceChar c then some (r.dropWhile isSpaceChar) else none
  | [] => none

/-- Whitespace then exactly four digits: the year tail of the month
pattern. -/
def wsYear (l : List Char) : Option (List Char) :=
  match wsPlus l with
  | some r =>
    match takeP isDigit09 4 r with
    | some (_, r2) => some r2
    | none => none
  | none => none

/-- Optional comma (greedy) before the year tail. -/
def commaWsYear (l : List Char) : Option (List Char) :=
  (match l with
   | ',' :: r => wsYear r
   | _ => none) <|> wsYear l

/-- Day-of-month and year tail of the month pattern: one-or-two digits
(greedy, with backtracking), optional comma, whitespace, four digits. -/
def monthDayYear (l : List Char) : Option (List Char) :=
  (match takeP isDigit09 2 l with
   | some (_, r) => commaWsYear r
   | none => none) <|>
  (match takeP isDigit09 1 l with
   | some (_, r) => commaWsYear r
   | none => none)

/-- Anchored matcher for the long-form month-name date pattern, matched
case-insensitively; the reported text is the capture group, i.e. the month
name as it appears in the input. -/
def matchMonthAt (l : List Char) : Option (List Char × List Char) :=
  match tryMonths monthNames l with
  | some (g, r0) =>
    match wsPlus r0 with
    | some r1 =>
      match monthDayYear r1 with
      | some r2 => some (g, r2)
      | none => none
    | none => none
  | none => none

/-! ### `expand_query` (chatbot_engine.py 47-78) -/

def flowstation_keywords : List String := ["flowstation", "fs", "flow station"]

/-- The queries contributed by the well identifiers found in the uppercased
question: for each match, `"well <id>"` and `"production <id>"`. -/
def wellQueries : List (List Char) → List String
  | [] => []
  | w :: ws =>
    ("well " ++ String.mk w) :: ("production " ++ String.mk w) :: wellQueries ws

/-- The query contributed by one date pattern: for the first match `d`,
`"date <d> production"`; nothing when the pattern finds no match. -/
def dateQueryFor (m : List Char → Option (List Char × List Char))
    (qc : List Char) : List String :=
  match findAll m qc with
  | [] => []
  | d :: _ => ["date " ++ String.mk d ++ " production"]

/-- `expand_query`: the original question, then well-identifier queries,
then the case-insensitively detected flow-station keyword substitutions
(the substitution itself is case-sensitive, Python `str.replace`), then one
date query per matching date pattern, finally deduplicated with Python
`list(set(...))` (modelled by first-occurrence deduplication; only
membership in the result is relied upon). -/
def expand_query (query : String) : List String :=
  let qc := query.data
  let lowered := qc.map Char.toLower
  dedupFirst
    ([query] ++
      wellQueries (findAll matchWellAt (qc.map Char.toUpper)) ++
      flowstation_keywords.filterMap (fun kw =>
        if listContains kw.data lowered then some (pyReplace query kw "flowStation")
        else none) ++
      dateQueryFor matchISOAt qc ++
      dateQueryFor matchNumAt qc ++
      dateQueryFor matchMonthAt qc)

/-! ### Metadata and the prompt composer (chatbot_engine.py 201-236)

A chunk's metadata is a Python dict with string-rendered scalar values,
modelled as an association list with first-key lookup. -/

abbrev Meta : Type := List (String × String)

/-- Python `meta.get(k)`. -/
def pyGet (m : Meta) (k : String) : Option String :=
  match m with
  | [] => none
  | p :: rest => if p.1 = k then some p.2 else pyGet rest k

/-- Python `meta.get(k, d)`. -/
def pyGetD (m : Meta) (k : String) (d : String) : String :=
  (pyGet m k).getD d

/-- Truthiness of an optional string value, Python-style: present and
nonempty. -/
def pyTruthy : Option String → Bool
  | some s => s ≠ ""
  | none => false

/-- Rendering of `a or b` inside an f-string: the first truthy value,
otherwise `b` rendered as Python would (absent keys render as `None`). -/
def pyOrDisp (a b : Option String) : String :=
  if pyTruthy a then a.getD ""
  else
    match b with
    | some s => s
    | none => "None"

/-- The one-line metadata summary built for each selected chunk
(chatbot_engine.py 203-211): the collection field is always present,
defaulting to `Unknown`; asset, flowstation (either alias key) and date
(either alias key) are appended only when a corresponding key exists. -/
def metaSummary (meta : Meta) : String :=
  let s1 := "[Collection: " ++ pyGetD meta "collection" "Unknown" ++ "]"
  let s2 :=
    if (pyGet meta "asset").isSome then
      s1 ++ " [Asset: " ++ pyGetD meta "asset" "" ++ "]"
    else s1
  let s3 :=
    if (pyGet meta "flowStation").isSome || (pyGet meta "flowstation").isSome then
      s2 ++ " [Flowstation: " ++
        pyOrDisp (pyGet meta "flowStation") (pyGet meta "flowstation") ++ "]"
    else s2
  if (pyGet meta "date").isSome || (pyGet meta "productionDate").isSome then
    s3 ++ " [Date: " ++
      pyOrDisp (pyGet meta "date") (pyGet meta "productionDate") ++ "]"
  else s3

/-! ### Deduplication (chatbot_engine.py 166-173) -/

/-- The seen-set loop of the deduplicator, on (chunk, metadata) pairs. -/
def dedupePairsAux [DecidableEq α] (seen : List α) : List (α × β) → List (α × β)
  | [] => []
  | p :: rest =>
    if p.1 ∈ seen then dedupePairsAux seen rest
    else p :: dedupePairsAux (p.1 :: seen) rest

/-- Deduplication keyed on exact chunk text: iterate `zip(chunks, metas)`,
keeping a pair only when its chunk text has not been seen. -/
def dedupe [DecidableEq α] (chunks : List α) (metas : List β) :
    List α × List β :=
  ((dedupePairsAux [] (chunks.zip metas)).map Prod.fst,
   (dedupePairsAux [] (chunks.zip metas)).map Prod.snd)

/-! ### Reranking (chatbot_engine.py 179-189)

`sorted(zip(unique_chunks, unique_metadatas, scores), key=lambda x: x[2],
reverse=True)` is a stable descending sort by the third component.  It is
embedded as a stable insertion sort, which agrees extensionally with any
stable descending sort. -/

/-- Python `zip` of three parallel lists (truncating to the shortest). -/
def zip3 (a : List α) (b : List β) (c : List γ) : List (α × β × γ) :=
  a.zip (b.zip c)

/-- The sort key `x[2]`. -/
def scoreOf (x : α × β × S) : S := x.2.2

/-- Insert an element into a descending-sorted list, before the first
element whose score it reaches (so that stability places earlier input
elements first among equal scores). -/
def pyInsertDesc [LinearOrder S] (a : α × β × S) :
    List (α × β × S) → List (α × β × S)
  | [] => [a]
  | b :: l =>
    if scoreOf b ≤ scoreOf a then a :: b :: l else b :: pyInsertDesc a l

/-- Stable descending sort by score, the embedding of
`sorted(..., key=lambda x: x[2], reverse=True)`. -/
def pySortDesc [LinearOrder S] : List (α × β × S) → List (α × β × S)
  | [] => []
  | b :: l => pyInsertDesc b (pySortDesc l)

/-! ### The pipeline (chatbot_engine.py 96-239, main_app.py 72-85)

External collaborators are function parameters; a fallible call returns
`Except String` carrying the exception's message.  The pipeline is
instrumented with an event trace recording the reranker call and the LLM
dispatch, so that short-circuit claims can state that no such call was
performed. -/

def TOP_K : Nat := 30
def MAX_TOKENS : Nat := 4000

def noInfoMsg : String :=
  "❌ No relevant information found in the database for your query."

/-- The result of one vector-index query: parallel per-query lists of
documents, metadatas and distances. -/
structure QueryResult where
  documents : List (List String)
  metadatas : List (List Meta)
  distances : List (List ℚ)

/-- The external collaborators of the pipeline, over an embedding type `E`
and a relevance-score type `S`. -/
structure Collaborators (E S : Type) where
  encode : String → Except String E
  query : E → Nat → Except String QueryResult
  predict : List (String × String) → Except String (List S)
  tok : String → Nat
  llm : String → Except String String

/-- Observable pipeline events. -/
inductive Event where
  | rerankCall : Event
  | llmCall : Event
deriving DecidableEq

/-- `groq_llm_inference` (chatbot_engine.py 96-120): dispatch the prompt to
the LLM backend; a raised exception is caught and converted into a
warning-prefixed string embedding the exception's message. -/
def groq_llm_inference (client : String → Except String String)
    (prompt : String) : String :=
  match client prompt with
  | Except.ok t => t
  | Except.error e => "⚠️ Error generating response: " ++ e

/-- The retrieval loop (chatbot_engine.py 149-160): encode each consumed
query, issue one index query, and when the first documents list is nonempty
extend the accumulators with it and its parallel metadata list.  Any
exception from a collaborator propagates. -/
def retrieveLoop (c : Collaborators E S) (k : Nat) :
    List String → Except String (List String × List Meta)
  | [] => Except.ok ([], [])
  | q :: qs =>
    match c.encode q with
    | Except.error e => Except.error e
    | Except.ok emb =>
      match c.query emb k with
      | Except.error e => Except.error e
      | Except.ok r =>
        match r.documents with
        | [] => retrieveLoop c k qs
        | d0 :: _ =>
          match d0 with
          | [] => retrieveLoop c k qs
          | _ :: _ =>
            match r.metadatas with
            | [] => Except.error "IndexError: list index out of range"
            | m0 :: _ =>
              match retrieveLoop c k qs with
              | Except.error e => Except.error e
              | Except.ok (cs, ms) => Except.ok (d0 ++ cs, m0 ++ ms)

/-- The expanded queries actually consumed: `expanded_queries[:3]`. -/
def consumedQueries (question : String) : List String :=
  (expand_query question).take 3

/-- `n_results` for each index call:
`TOP_K // len(expanded_queries[:3])`. -/
def perQueryK (question : String) : Nat :=
  TOP_K / (consumedQueries question).length

/-- The fixed instruction template of the prompt composer
(chatbot_engine.py 218-236). -/
def promptTemplate (context_text user_question : String) : String :=
  "You are analyzing petroleum engineering production data from a database.\n\n**IMPORTANT INSTRUCTIONS:**\n1. Answer based ONLY on the context provided below\n2. If you find specific data, cite it with exact values and units\n3. If data is missing or incomplete, clearly state what\x27s missing\n4. For production queries, include: well name, flowstation, values with units\n5. For date-based queries, verify the date matches what was asked\n6. If you see multiple records, analyze all of them\n7. Be precise with numbers - don\x27t round unnecessarily\n8. Use markdown tables for multiple data points\n\n**CONTEXT DATA:**\n"
    ++ context_text ++ "\n\n**USER QUESTION:**\n" ++ user_question
    ++ "\n\n**YOUR ANSWER:**"

/-- Rerank, budget and compose the prompt (chatbot_engine.py 179-236):
stable descending sort of the (chunk, metadata, score) triples, token
budgeting of the ranked chunk texts, metadata annotation of the selected
chunks, and embedding into the instruction template. -/
def buildPrompt [LinearOrder S] (tok : String → Nat) (question : String)
    (unique_chunks : List String) (unique_metadatas : List Meta)
    (scores : List S) : String :=
  let reranked := pySortDesc (zip3 unique_chunks unique_metadatas scores)
  let reranked_chunks := reranked.map (fun x => x.1)
  let reranked_metadatas := reranked.map (fun x => x.2.1)
  let limited := limit_context tok reranked_chunks MAX_TOKENS
  let context_parts :=
    (limited.1.zip (reranked_metadatas.take limited.1.length)).map
      (fun pr => metaSummary pr.2 ++ "\n" ++ pr.1)
  promptTemplate (String.intercalate "\n\n---\n\n" context_parts) question

/-- `query_chatbot` (chatbot_engine.py 122-239) with an event trace:
expansion, retrieval over at most three queries, empty-retrieval
short-circuit, deduplication, reranker call, budgeting, prompt composition
and LLM dispatch.  The first component is the returned string or the
propagated exception; the second lists the reranker and LLM calls
performed. -/
def queryChatbotT [LinearOrder S] (c : Collaborators E S) (question : String)
    (debug : Bool) : Except String String × List Event :=
  match retrieveLoop c (perQueryK question) (consumedQueries question) with
  | Except.error e => (Except.error e, [])
  | Except.ok (all_chunks, all_metadatas) =>
    if all_chunks = [] then (Except.ok noInfoMsg, [])
    else
      match c.predict (((dedupe all_chunks all_metadatas).1).map
          (fun d => (question, d))) with
      | Except.error e => (Except.error e, [Event.rerankCall])
      | Except.ok scores =>
        (Except.ok (groq_llm_inference c.llm
            (buildPrompt c.tok question (dedupe all_chunks all_metadatas).1
              (dedupe all_chunks all_metadatas).2 scores)),
         [Event.rerankCall, Event.llmCall])

/-- `query_chatbot`'s return value (or propagated exception). -/
def query_chatbot [LinearOrder S] (c : Collaborators E S) (question : String)
    (debug : Bool) : Except String String :=
  (queryChatbotT c question debug).1

/-- `process_query` (main_app.py 72-85): the top-level entry point wraps
any exception propagated by `query_chatbot` into a user-visible error
string and otherwise returns the answer unchanged. -/
def process_query [LinearOrder S] (c : Collaborators E S)
    (user_input : String) : String :=
  match query_chatbot c user_input false with
  | Except.ok s => s
  | Except.error e => "⚠️ Error processing query: " ++ e

/-! ### Lemmas about the deduplicator -/

theorem dedupePairsAux_sublist [DecidableEq α] (l : List (α × β)) :
    ∀ seen : List α, (dedupePairsAux seen l).Sublist l := by
  induction l with
  | nil => intro seen; simp [dedupePairsAux]
  | cons p rest ih =>
    intro seen
    by_cases hp : p.1 ∈ seen
    · simp only [dedupePairsAux, if_pos hp]
      exact (ih seen).cons p
    · simp only [dedupePairsAux, if_neg hp]
      exact (ih (p.1 :: seen)).cons₂ p

theorem dedupePairsAux_filter [DecidableEq α] (l : List (α × β)) :
    ∀ (seen : List α) (a : α),
      (a ∈ seen →
        (dedupePairsAux seen l).filter (fun p => decide (p.1 = a)) = []) ∧
      (a ∉ seen →
        (dedupePairsAux seen l).filter (fun p => decide (p.1 = a)) =
          (l.find? (fun p => decide (p.1 = a))).toList) := by
  induction l with
  | nil => intro seen a; simp [dedupePairsAux]
  | cons p rest ih =>
    intro seen a
    by_cases hp : p.1 ∈ seen
    · simp only [dedupePairsAux, if_pos hp]
      constructor
      · intro ha
        exact (ih seen a).1 ha
      · intro ha
        have hpa : p.1 ≠ a := fun h => ha (h ▸ hp)
        rw [(ih seen a).2 ha]
        simp [List.find?, hpa]
    · simp only [dedupePairsAux, if_neg hp]
      constructor
      · intro ha
        have hpa : p.1 ≠ a := fun h => hp (h ▸ ha)
        rw [List.filter_cons]
        rw [if_neg (by simp [hpa])]
        exact (ih (p.1 :: seen) a).1 (List.mem_cons_of_mem _ ha)
      · intro ha
        by_cases hpa : p.1 = a
        · subst hpa
          rw [List.filter_cons, if_pos (by simp)]
          rw [(ih (p.1 :: seen) p.1).1 (List.mem_cons_self _ _)]
          simp [List.find?]
        · rw [List.filter_cons]
          rw [if_neg (by simp [hpa])]
          have ha2 : a ∉ p.1 :: seen := by
            simp only [List.mem_cons]
            rintro (h | h)
            · exact hpa h.symm
            · exact ha h
          rw [(ih (p.1 :: seen) a).2 ha2]
          simp [List.find?, hpa]

theorem map_fst_zip_sublist (chunks : List α) :
    ∀ metas : List β, ((chunks.zip metas).map Prod.fst).Sublist chunks := by
  induction chunks with
  | nil => intro metas; simp
  | cons c cs ih =>
    intro metas
    cases metas with
    | nil => simp
    | cons m ms =>
      simpa using (ih ms).cons₂ c

/-- C9: deduplication keyed on exact chunk text is order-preserving (the
surviving pairs form a sublist of the zipped input, and the surviving
chunks a sublist of the input chunks), its outputs are no longer than the
inputs, and for every chunk text the surviving pairs are exactly the first
occurrence of that text in the input — later occurrences are dropped with
their metadata, even when that metadata differs. -/
theorem dedupe_first_occurrence (α β : Type) [DecidableEq α]
    (chunks : List α) (metas : List β) :
    (dedupePairsAux [] (chunks.zip metas)).Sublist (chunks.zip metas) ∧
    (dedupe chunks metas).1.Sublist chunks ∧
    (dedupe chunks metas).1.length ≤ chunks.length ∧
    (dedupe chunks metas).2.length ≤ metas.length ∧
    (∀ a : α,
      (dedupePairsAux [] (chunks.zip metas)).filter (fun p => decide (p.1 = a)) =
        ((chunks.zip metas).find? (fun p => decide (p.1 = a))).toList) := by
  have hsub := dedupePairsAux_sublist (chunks.zip metas) ([] : List α)
  have hfst : (dedupe chunks metas).1.Sublist chunks := by
    simp only [dedupe]
    exact (hsub.map Prod.fst).trans (map_fst_zip_sublist chunks metas)
  refine ⟨hsub, hfst, ?_, ?_, ?_⟩
  · exact hfst.length_le
  · simp only [dedupe, List.length_map]
    calc (dedupePairsAux [] (chunks.zip metas)).length
        ≤ (chunks.zip metas).length := hsub.length_le
      _ ≤ metas.length := by
          rw [List.length_zip]
          exact Nat.min_le_right _ _
  · intro a
    exact (dedupePairsAux_filter (chunks.zip metas) [] a).2 (by simp)

/-! ### Lemmas about the stable descending sort -/

theorem mem_pyInsertDesc [LinearOrder S] (a x : α × β × S) (l : List (α × β × S)) :
    x ∈ pyInsertDesc a l ↔ x = a ∨ x ∈ l := by
  induction l with
  | nil => simp [pyInsertDesc]
  | cons b l ih =>
    by_cases h : scoreOf b ≤ scoreOf a
    · simp [pyInsertDesc, if_pos h]
    · simp only [pyInsertDesc, if_neg h, List.mem_cons, ih]
      tauto

theorem sorted_pyInsertDesc [LinearOrder S] (a : α × β × S)
    (l : List (α × β × S))
    (h : List.Sorted (fun x y : α × β × S => scoreOf y ≤ scoreOf x) l) :
    List.Sorted (fun x y : α × β × S => scoreOf y ≤ scoreOf x)
      (pyInsertDesc a l) := by
  induction l with
  | nil => simp [pyInsertDesc]
  | cons b l ih =>
    rw [List.sorted_cons] at h
    by_cases hba : scoreOf b ≤ scoreOf a
    · simp only [pyInsertDesc, if_pos hba]
      rw [List.sorted_cons]
      constructor
      · intro z hz
        rcases List.mem_cons.mp hz with h1 | h1
        · exact h1 ▸ hba
        · exact le_trans (h.1 z h1) hba
      · rw [List.sorted_cons]
        exact h
    · simp only [pyInsertDesc, if_neg hba]
      rw [List.sorted_cons]
      constructor
      · intro z hz
        rcases (mem_pyInsertDesc a z l).mp hz with h1 | h1
        · exact h1 ▸ le_of_lt (lt_of_not_le hba)
        · exact h.1 z h1
      · exact ih h.2

theorem sorted_pySortDesc [LinearOrder S] (l : List (α × β × S)) :
    List.Sorted (fun x y : α × β × S => scoreOf y ≤ scoreOf x)
      (pySortDesc l) := by
  induction l with
  | nil => simp [pySortDesc]
  | cons b l ih => exact sorted_pyInsertDesc b (pySortDesc l) ih

theorem filter_pyInsertDesc [LinearOrder S] (s : S) (a : α × β × S)
    (l : List (α × β × S)) :
    (pyInsertDesc a l).filter (fun x => decide (scoreOf x = s)) =
      if scoreOf a = s then
        a :: l.filter (fun x => decide (scoreOf x = s))
      else l.filter (fun x => decide (scoreOf x = s)) := by
  induction l with
  | nil =>
    by_cases has : scoreOf a = s <;>
      simp [pyInsertDesc, List.filter_cons, has]
  | cons b l ih =>
    by_cases hba : scoreOf b ≤ scoreOf a
    · simp only [pyInsertDesc, if_pos hba]
      by_cases has : scoreOf a = s <;>
        simp [List.filter_cons, has]
    · have hab : scoreOf a < scoreOf b := lt_of_not_le hba
      simp only [pyInsertDesc, if_neg hba]
      by_cases has : scoreOf a = s
      · have hbs : scoreOf b ≠ s := fun hb => absurd (hb.trans has.symm) (ne_of_gt hab)
        simp [List.filter_cons, ih, has, hbs]
      · by_cases hbs : scoreOf b = s
        · simp [List.filter_cons, ih, has, hbs]
        · simp [List.filter_cons, ih, has, hbs]

theorem filter_pySortDesc [LinearOrder S] (s : S) (l : List (α × β × S)) :
    (pySortDesc l).filter (fun x => decide (scoreOf x = s)) =
      l.filter (fun x => decide (scoreOf x = s)) := by
  induction l with
  | nil => simp [pySortDesc]
  | cons b l ih =>
    show (pyInsertDesc b (pySortDesc l)).filter _ = _
    rw [filter_pyInsertDesc]
    by_cases hbs : scoreOf b = s
    · rw [if_pos hbs, ih, List.filter_cons, if_pos (by simp [hbs])]
    · rw [if_neg hbs, ih, List.filter_cons, if_neg (by simp [hbs])]

/-- C8: the reranker's output is sorted non-increasing by score, the sort
is stable (for every score value the elements carrying it appear exactly as
in the post-deduplication input), and on chunks `[A, B, C]` with scores
`[0.2, 0.9, 0.5]` the output chunk order is `[B, C, A]`. -/
theorem rerank_sorted_stable (α β S : Type) [LinearOrder S]
    (chunks : List α) (metas : List β) (scores : List S) :
    List.Sorted (fun x y : α × β × S => scoreOf y ≤ scoreOf x)
      (pySortDesc (zip3 chunks metas scores)) ∧
    (∀ s : S,
      (pySortDesc (zip3 chunks metas scores)).filter
          (fun x => decide (scoreOf x = s)) =
        (zip3 chunks metas scores).filter (fun x => decide (scoreOf x = s))) ∧
    (pySortDesc (zip3 ["A", "B", "C"] [([] : Meta), [], []]
        [(0.2 : ℚ), 0.9, 0.5])).map (fun x => x.1) = ["B", "C", "A"] :=
  ⟨sorted_pySortDesc _, fun s => filter_pySortDesc s _, by
    norm_num [pySortDesc, pyInsertDesc, scoreOf, zip3]⟩

/-! ### Lemmas about `expand_query` -/

theorem mem_dedupFirstAux [DecidableEq α] (l : List α) :
    ∀ (seen : List α) (a : α),
      a ∈ dedupFirstAux seen l ↔ a ∈ l ∧ a ∉ seen := by
  induction l with
  | nil => intro seen a; simp [dedupFirstAux]
  | cons x xs ih =>
    intro seen a
    by_cases hx : x ∈ seen
    · simp only [dedupFirstAux, if_pos hx, ih, List.mem_cons]
      constructor
      · rintro ⟨h1, h2⟩
        exact ⟨Or.inr h1, h2⟩
      · rintro ⟨h1 | h1, h2⟩
        · exact absurd (h1 ▸ hx) h2
        · exact ⟨h1, h2⟩
    · simp only [dedupFirstAux, if_neg hx, List.mem_cons, ih]
      constructor
      · rintro (h1 | ⟨h1, h2⟩)
        · exact ⟨Or.inl h1, h1 ▸ hx⟩
        · exact ⟨Or.inr h1, fun hs => h2 (Or.inr hs)⟩
      · rintro ⟨h1 | h1, h2⟩
        · exact Or.inl h1
        · by_cases hax : a = x
          · exact Or.inl hax
          · exact Or.inr ⟨h1, by simp [hax, h2]⟩

theorem mem_dedupFirst [DecidableEq α] (l : List α) (a : α) :
    a ∈ dedupFirst l ↔ a ∈ l := by
  simp [dedupFirst, mem_dedupFirstAux]

/-- C5 (amended): each of the three date patterns contributes
independently — for every question and every one of the three date
matchers, if the pattern finds at least one match then the synthetic query
built from that pattern's first match is in the expansion.  (The source
has no break between the patterns, so a later matching pattern is not
suppressed by an earlier one.) -/
theorem expand_query_date_pattern_each_contributes (q : String)
    (m : List Char → Option (List Char × List Char))
    (hm : m ∈ [matchISOAt, matchNumAt, matchMonthAt])
    (d : List Char) (ds : List (List Char))
    (hd : findAll m q.data = d :: ds) :
    ("date " ++ String.mk d ++ " production") ∈ expand_query q := by
  have hq : ("date " ++ String.mk d ++ " production") ∈ dateQueryFor m q.data := by
    simp [dateQueryFor, hd]
  simp only [expand_query, mem_dedupFirst, List.mem_append]
  rcases List.mem_cons.mp hm with h | hm
  · subst h
    exact Or.inl (Or.inl (Or.inr hq))
  rcases List.mem_cons.mp hm with h | hm
  · subst h
    exact Or.inl (Or.inr hq)
  rcases List.mem_cons.mp hm with h | hm
  · subst h
    exact Or.inr hq
  · simp at hm

/-- Witness for the amended C5: in the question
`"report for 2024-01-02"` the ISO pattern's first match is `2024-01-02`,
and the corresponding date query is in the expansion. -/
theorem expand_query_date_pattern_each_contributes_witness :
    matchISOAt ∈ [matchISOAt, matchNumAt, matchMonthAt] ∧
    findAll matchISOAt ("report for 2024-01-02".data) =
      ("2024-01-02".data) :: [] ∧
    "date 2024-01-02 production" ∈ expand_query "report for 2024-01-02" :=
  ⟨List.mem_cons_self _ _, by decide,
    expand_query_date_pattern_each_contributes "report for 2024-01-02"
      matchISOAt (List.mem_cons_self _ _) ("2024-01-02".data) [] (by decide)⟩

/-- Counterexample to C5 as stated: the question
`"report for 2024-01-02"` matches both the ISO pattern (first match
`2024-01-02`) and the slash-or-dash numeric pattern (first match
`24-01-02`, found inside the same text), and the expansion contains a
distinct date query for each — not only one for the first matching
pattern. -/
theorem expand_query_two_date_queries_counterexample :
    "date 2024-01-02 production" ∈ expand_query "report for 2024-01-02" ∧
    "date 24-01-02 production" ∈ expand_query "report for 2024-01-02" ∧
    "date 2024-01-02 production" ≠ "date 24-01-02 production" := by
  refine ⟨by decide, by decide, by decide⟩

/-- C6 (amended): when a flow-station keyword occurs in the lowercased
question, the expansion contains the question with the *literal lowercase*
keyword occurrences substituted by the canonical spelling (Python
`str.replace`, which is case-sensitive); occurrences in any other casing
are left unchanged within the appended variant. -/
theorem expand_query_flowstation_lowercase_variant (q : String) (kw : String)
    (h1 : kw ∈ flowstation_keywords)
    (h2 : listContains kw.data (q.data.map Char.toLower) = true) :
    pyReplace q kw "flowStation" ∈ expand_query q := by
  simp only [expand_query, mem_dedupFirst, List.mem_append]
  refine Or.inl (Or.inl (Or.inl (Or.inr ?_)))
  exact List.mem_filterMap.mpr ⟨kw, h1, by rw [if_pos h2]⟩

/-- Witness for the amended C6: the lowercase question
`"flowstation output"` gets the substituted variant
`"flowStation output"` in its expansion. -/
theorem expand_query_flowstation_lowercase_variant_witness :
    ("flowstation" : String) ∈ flowstation_keywords ∧
    listContains ("flowstation".data)
      ("flowstation output".data.map Char.toLower) = true ∧
    pyReplace "flowstation output" "flowstation" "flowStation" ∈
      expand_query "flowstation output" :=
  ⟨List.mem_cons_self _ _, by decide,
    expand_query_flowstation_lowercase_variant "flowstation output"
      "flowstation" (List.mem_cons_self _ _) (by decide)⟩

/-- Counterexample to C6 as stated: in `"Flowstation A"` the keyword
`flowstation` does appear case-insensitively, yet the expansion does not
contain `"flowStation A"` (the variant the claim requires): detection
lowercases the question but the replacement is case-sensitive on the
original text, so the non-lowercase occurrence is left unreplaced. -/
theorem expand_query_flowstation_case_counterexample :
    listContains ("flowstation".data)
      ("Flowstation A".data.map Char.toLower) = true ∧
    "flowStation A" ∉ expand_query "Flowstation A" := by
  refine ⟨by decide, by decide⟩

/-! ### The metadata summary, field by field -/

/-- Spec-side characterisation: the asset field of the summary, present
exactly when the `asset` key is. -/
def assetPart (m : Meta) : String :=
  match pyGet m "asset" with
  | some v => " [Asset: " ++ v ++ "]"
  | none => ""

/-- Spec-side characterisation: the flowstation field, present exactly when
one of the alias keys is, preferring the truthy value of the primary. -/
def fsPart (m : Meta) : String :=
  if (pyGet m "flowStation").isSome || (pyGet m "flowstation").isSome then
    " [Flowstation: " ++
      pyOrDisp (pyGet m "flowStation") (pyGet m "flowstation") ++ "]"
  else ""

/-- Spec-side characterisation: the date field, present exactly when one of
the alias keys is. -/
def datePart (m : Meta) : String :=
  if (pyGet m "date").isSome || (pyGet m "productionDate").isSome then
    " [Date: " ++ pyOrDisp (pyGet m "date") (pyGet m "productionDate") ++ "]"
  else ""

theorem wrap_ne_empty (a v b : String) (ha : a.length ≠ 0) :
    a ++ v ++ b ≠ "" := by
  intro h
  have hl := congrArg String.length h
  rw [String.length_append, String.length_append] at hl
  have h0 : ("" : String).length = 0 := rfl
  rw [h0] at hl
  omega

/-- C7 (amended): the one-line metadata summary factors into a collection
field followed by the asset, flowstation and date fields; the asset,
flowstation and date fields are present exactly when a corresponding key
is present in the metadata, but the collection field is always present,
rendering `Unknown` when the `collection` key is absent. -/
theorem metaSummary_field_presence (m : Meta) :
    metaSummary m =
      "[Collection: " ++ pyGetD m "collection" "Unknown" ++ "]" ++
        assetPart m ++ fsPart m ++ datePart m ∧
    (assetPart m = "" ↔ pyGet m "asset" = none) ∧
    (fsPart m = "" ↔
      (pyGet m "flowStation" = none ∧ pyGet m "flowstation" = none)) ∧
    (datePart m = "" ↔
      (pyGet m "date" = none ∧ pyGet m "productionDate" = none)) := by
  refine ⟨?_, ?_, ?_, ?_⟩
  · simp only [metaSummary, assetPart, fsPart, datePart]
    cases hA : pyGet m "asset" <;>
      by_cases hF : ((pyGet m "flowStation").isSome ||
          (pyGet m "flowstation").isSome) = true <;>
      by_cases hD : ((pyGet m "date").isSome ||
          (pyGet m "productionDate").isSome) = true <;>
      simp only [hA, hF, hD, Option.isSome_some, Option.isSome_none,
        Bool.false_eq_true, if_true, if_false, ite_true, ite_false,
        pyGetD, Option.getD_some, Option.getD_none,
        String.append_empty, String.append_assoc]
  · cases hA : pyGet m "asset" with
    | none => simp [assetPart, hA]
    | some v =>
      simp only [assetPart, hA]
      constructor
      · intro h
        exact absurd h (wrap_ne_empty _ _ _ (by decide))
      · intro h
        cases h
  · by_cases hb : pyGet m "flowStation" = none ∧ pyGet m "flowstation" = none
    · simp [fsPart, hb.1, hb.2]
    · have hcond : ((pyGet m "flowStation").isSome ||
          (pyGet m "flowstation").isSome) = true := by
        cases hx : pyGet m "flowStation" with
        | some v => simp
        | none =>
          cases hy : pyGet m "flowstation" with
          | some v => simp
          | none => exact absurd ⟨hx, hy⟩ hb
      simp only [fsPart]
      rw [if_pos hcond]
      constructor
      · intro h
        exact absurd h (wrap_ne_empty _ _ _ (by decide))
      · intro hcases
        exact absurd hcases hb
  · by_cases hb : pyGet m "date" = none ∧ pyGet m "productionDate" = none
    · simp [datePart, hb.1, hb.2]
    · have hcond : ((pyGet m "date").isSome ||
          (pyGet m "productionDate").isSome) = true := by
        cases hx : pyGet m "date" with
        | some v => simp
        | none =>
          cases hy : pyGet m "productionDate" with
          | some v => simp
          | none => exact absurd ⟨hx, hy⟩ hb
      simp only [datePart]
      rw [if_pos hcond]
      constructor
      · intro h
        exact absurd h (wrap_ne_empty _ _ _ (by decide))
      · intro hcases
        exact absurd hcases hb

/-- Counterexample to C7 as stated: a chunk whose metadata lacks the
`collection` key still gets a collection field — on empty metadata the
summary is `[Collection: Unknown]`, not the empty summary the claim's
"absent key produces no field" would require for the collection key. -/
theorem metaSummary_missing_collection_counterexample :
    pyGet ([] : Meta) "collection" = none ∧
    metaSummary ([] : Meta) = "[Collection: Unknown]" := by
  refine ⟨rfl, by decide⟩

/-! ### The answer synthesizer -/

/-- C3: the answer synthesizer never raises — for every behaviour of the
LLM backend, on success it returns the completion text and on failure
(whatever exception message) it returns a string beginning with the warning
marker and containing the exception's message text. -/
theorem groq_llm_inference_never_raises (client : String → Except String String)
    (prompt : String) :
    (∀ t, client prompt = Except.ok t → groq_llm_inference client prompt = t) ∧
    (∀ e, client prompt = Except.error e →
      (∃ rest, groq_llm_inference client prompt = "⚠️" ++ rest) ∧
      (∃ pre, groq_llm_inference client prompt = pre ++ e)) := by
  constructor
  · intro t ht
    simp [groq_llm_inference, ht]
  · intro e he
    have hval : groq_llm_inference client prompt =
        "⚠️ Error generating response: " ++ e := by
      simp [groq_llm_inference, he]
    constructor
    · refine ⟨" Error generating response: " ++ e, ?_⟩
      have hlit : ("⚠️" : String) ++ " Error generating response: " =
          "⚠️ Error generating response: " := by decide
      rw [hval, ← String.append_assoc, hlit]
    · exact ⟨"⚠️ Error generating response: ", hval⟩

/-- Witness for C3: a backend that raises with message `boom` yields a
warning-marked string containing `boom`. -/
theorem groq_llm_inference_never_raises_witness :
    (∃ rest, groq_llm_inference
        (fun _ => Except.error "boom") "p" = "⚠️" ++ rest) ∧
    (∃ pre, groq_llm_inference
        (fun _ => Except.error "boom") "p" = pre ++ "boom") :=
  (groq_llm_inference_never_raises (fun _ => Except.error "boom") "p").2
    "boom" rfl

/-! ### The empty-retrieval short circuit -/

theorem retrieveLoop_empty (c : Collaborators E S) (k : Nat) (qs : List String)
    (h : ∀ q ∈ qs, ∃ emb r, c.encode q = Except.ok emb ∧
        c.query emb k = Except.ok r ∧
        (r.documents = [] ∨ ∃ ds, r.documents = [] :: ds)) :
    retrieveLoop c k qs = Except.ok ([], []) := by
  induction qs with
  | nil => rfl
  | cons q qs ih =>
    obtain ⟨emb, r, he, hq, hd⟩ := h q (List.mem_cons_self _ _)
    have ih2 := ih (fun x hx => h x (List.mem_cons_of_mem _ hx))
    simp only [retrieveLoop, he, hq]
    rcases hd with hd | ⟨ds, hd⟩ <;> rw [hd] <;> exact ih2

/-- C2: when every consumed expanded query retrieves successfully but
yields zero candidates, `query_chatbot` returns the fixed
no-relevant-information message, and neither the reranker nor the LLM
backend is called. -/
theorem query_chatbot_no_candidates_short_circuit (E S : Type) [LinearOrder S]
    (c : Collaborators E S) (question : String) (debug : Bool)
    (h : ∀ q ∈ consumedQueries question, ∃ emb r,
        c.encode q = Except.ok emb ∧
        c.query emb (perQueryK question) = Except.ok r ∧
        (r.documents = [] ∨ ∃ ds, r.documents = [] :: ds)) :
    queryChatbotT c question debug = (Except.ok noInfoMsg, []) ∧
    Event.rerankCall ∉ (queryChatbotT c question debug).2 ∧
    Event.llmCall ∉ (queryChatbotT c question debug).2 := by
  have h0 : retrieveLoop c (perQueryK question) (consumedQueries question) =
      Except.ok ([], []) :=
    retrieveLoop_empty c (perQueryK question) (consumedQueries question) h
  have heq : queryChatbotT c question debug = (Except.ok noInfoMsg, []) := by
    simp only [queryChatbotT, h0, if_true]
  refine ⟨heq, ?_, ?_⟩ <;> rw [heq] <;> simp

/-- A collaborator assembly whose index always returns zero candidates. -/
def emptyCollab : Collaborators Unit ℚ :=
  ⟨fun _ => Except.ok (), fun _ _ => Except.ok ⟨[], [], []⟩,
   fun _ => Except.ok [], fun _ => 0, fun _ => Except.ok "unused"⟩

/-- Witness for C2: with an index returning no candidates for any query,
the pipeline answers the fixed message and performs no reranker or LLM
call. -/
theorem query_chatbot_no_candidates_short_circuit_witness :
    queryChatbotT emptyCollab "hi" false = (Except.ok noInfoMsg, []) ∧
    Event.rerankCall ∉ (queryChatbotT emptyCollab "hi" false).2 ∧
    Event.llmCall ∉ (queryChatbotT emptyCollab "hi" false).2 :=
  query_chatbot_no_candidates_short_circuit Unit ℚ emptyCollab "hi" false
    (fun _ _ => ⟨(), ⟨[], [], []⟩, rfl, rfl, Or.inl rfl⟩)

/-! ### Shape of the top-level result -/

theorem queryChatbot_result_shape {E S : Type} [LinearOrder S]
    (c : Collaborators E S) (q : String) (d : Bool) :
    (queryChatbotT c q d).1 = Except.ok noInfoMsg ∨
    (∃ e, (queryChatbotT c q d).1 = Except.error e) ∨
    (∃ p, (queryChatbotT c q d).1 = Except.ok (groq_llm_inference c.llm p)) := by
  cases hr : retrieveLoop c (perQueryK q) (consumedQueries q) with
  | error e =>
    refine Or.inr (Or.inl ⟨e, ?_⟩)
    simp only [queryChatbotT, hr]
  | ok pr =>
    obtain ⟨ac, am⟩ := pr
    by_cases hac : ac = []
    · refine Or.inl ?_
      simp only [queryChatbotT, hr]
      rw [if_pos hac]
    · cases hp : c.predict ((dedupe ac am).1.map (fun d0 => (q, d0))) with
      | error e =>
        refine Or.inr (Or.inl ⟨e, ?_⟩)
        simp only [queryChatbotT, hr]
        rw [if_neg hac]
        simp only [hp]
      | ok scores =>
        refine Or.inr (Or.inr
          ⟨buildPrompt c.tok q (dedupe ac am).1 (dedupe ac am).2 scores, ?_⟩)
        simp only [queryChatbotT, hr]
        rw [if_neg hac]
        simp only [hp]

/-- C4: the top-level entry point always returns a string — the fixed
no-relevant-information message, an error string wrapping a propagated
collaborator exception, or a synthesized answer (which itself is either the
completion or an LLM-error string) — for every behaviour of the external
collaborators; no exception escapes to the caller. -/
theorem process_query_always_returns_string (E S : Type) [LinearOrder S]
    (c : Collaborators E S) (q : String) :
    process_query c q = noInfoMsg ∨
    (∃ e, process_query c q = "⚠️ Error processing query: " ++ e) ∨
    (∃ p, process_query c q = groq_llm_inference c.llm p) := by
  rcases queryChatbot_result_shape c q false with h | ⟨e, h⟩ | ⟨p, h⟩
  · exact Or.inl (by simp [process_query, query_chatbot, h])
  · exact Or.inr (Or.inl ⟨e, by simp [process_query, query_chatbot, h]⟩)
  · exact Or.inr (Or.inr ⟨p, by simp [process_query, query_chatbot, h]⟩)

/-! ### The oversized-top-chunk case -/

/-- C10: when retrieval yields at least one candidate but the single
top-ranked chunk alone costs more than the token budget, the budgeter
selects nothing (empty selection, token count 0), and the pipeline still
composes a prompt whose context section is the empty string and dispatches
it to the LLM — it neither returns the no-relevant-information message nor
an error. -/
theorem query_chatbot_oversized_top_chunk (E S : Type) [LinearOrder S]
    (c : Collaborators E S) (question : String) (debug : Bool)
    (allC : List String) (allM : List Meta) (scores : List S)
    (x : String × Meta × S) (tl : List (String × Meta × S))
    (h1 : retrieveLoop c (perQueryK question) (consumedQueries question) =
      Except.ok (allC, allM))
    (h2 : allC ≠ [])
    (h3 : c.predict ((dedupe allC allM).1.map (fun d0 => (question, d0))) =
      Except.ok scores)
    (h5 : pySortDesc (zip3 (dedupe allC allM).1 (dedupe allC allM).2 scores) =
      x :: tl)
    (h6 : c.tok x.1 > MAX_TOKENS) :
    limit_context c.tok
      ((pySortDesc (zip3 (dedupe allC allM).1 (dedupe allC allM).2
        scores)).map (fun y => y.1)) MAX_TOKENS = ([], 0) ∧
    queryChatbotT c question debug =
      (Except.ok (groq_llm_inference c.llm (promptTemplate "" question)),
       [Event.rerankCall, Event.llmCall]) := by
  have hzero : (0 : Nat) + c.tok x.1 > MAX_TOKENS := by simpa using h6
  have hlim : ∀ rest : List String,
      limit_context c.tok (x.1 :: rest) MAX_TOKENS = ([], 0) := by
    intro rest
    have hstep : limitAux c.tok MAX_TOKENS (x.1 :: rest) 0 =
        if 0 + c.tok x.1 > MAX_TOKENS then ([], 0)
        else (x.1 :: (limitAux c.tok MAX_TOKENS rest (0 + c.tok x.1)).1,
              (limitAux c.tok MAX_TOKENS rest (0 + c.tok x.1)).2) := rfl
    show limitAux c.tok MAX_TOKENS (x.1 :: rest) 0 = ([], 0)
    rw [hstep, if_pos hzero]
  have hbp : buildPrompt c.tok question (dedupe allC allM).1
      (dedupe allC allM).2 scores = promptTemplate "" question := by
    simp only [buildPrompt, h5, List.map_cons, hlim]
    simp
    rw [show ("\n\n---\n\n".intercalate ([] : List String)) = "" from rfl]
  constructor
  · rw [h5, List.map_cons]
    exact hlim _
  · simp only [queryChatbotT, h1]
    rw [if_neg h2]
    simp only [h3, hbp]

/-- A collaborator assembly returning one chunk whose token cost exceeds
the budget. -/
def bigCollab : Collaborators Unit ℚ :=
  ⟨fun _ => Except.ok (),
   fun _ _ => Except.ok ⟨[["BIGCHUNK"]], [[[]]], []⟩,
   fun ps => Except.ok (ps.map (fun _ => (1 : ℚ))),
   fun _ => 4001,
   fun _ => Except.ok "answer"⟩

/-- Witness for C10: one retrieved chunk of cost 4001 against the budget
4000 — empty selection, empty context section, and the prompt is still
dispatched. -/
theorem query_chatbot_oversized_top_chunk_witness :
    limit_context bigCollab.tok
      ((pySortDesc (zip3 (dedupe ["BIGCHUNK"] [([] : Meta)]).1
        (dedupe ["BIGCHUNK"] [([] : Meta)]).2
        [(1 : ℚ)])).map (fun y => y.1)) MAX_TOKENS = ([], 0) ∧
    queryChatbotT bigCollab "hi" false =
      (Except.ok (groq_llm_inference bigCollab.llm (promptTemplate "" "hi")),
       [Event.rerankCall, Event.llmCall]) :=
  query_chatbot_oversized_top_chunk Unit ℚ bigCollab "hi" false
    ["BIGCHUNK"] [([] : Meta)] [(1 : ℚ)] ("BIGCHUNK", ([] : Meta), (1 : ℚ)) []
    rfl (by simp) rfl rfl (by decide)

end RadaAms
